import Mathlib

/-
Verification of the temporal-generalization subscore/regression scripts
(`run_plot_subscore_gat.py`, `run_decoding.py`) against their natural-language
specification.

The embedding is shallow: trial metadata rows become a structure `Event`
whose selection-relevant columns are rationals/booleans (the scripts only
compare them for equality/order), predictions and errors are real numbers,
`np.where`-style fancy indexing becomes index-list selection, and NaN cells
of the output arrays become `Option.none`.  Scoring and rank-correlation
primitives that live in external libraries (`analysis['scorer']`,
`jr.stats.repeated_spearman`, `jr.gat.subscore`) are passed in as opaque
function parameters: every claim below is about the selection, unioning,
minimum-count, error-formula and control-flow logic of the scripts
themselves, which is exactly the code under `src/`.
-/

-- ### Trial metadata (the `events` dataframe columns used by the scripts)

/-- One row of the behavioral `events` dataframe, restricted to the columns
the subscore/regression scripts read: the reported visibility
(`detect_button`, values 0..3), the stimulus contrast (`target_contrast`,
values .5/.75/1), the presence flag (`target_present`), and the circular
target angle (`target_circAngle`).  Numeric columns are carried as rationals
because the scripts only select/compare on them. -/
structure Event where
  detect_button : ℚ
  target_contrast : ℚ
  target_present : Bool
  target_circAngle : ℚ
  deriving DecidableEq, Inhabited

/-- The two analyses kept by the script
(`analyses = [... if name in ['target_present', 'target_circAngle']]`). -/
inductive AnalysisName where
  | target_present
  | target_circAngle
  deriving DecidableEq, Inhabited

/-- `events[analysis['name']]`: the true-label column of an analysis.
The boolean `target_present` column coerces to 0/1 as in numpy. -/
def labelOf (name : AnalysisName) (e : Event) : ℚ :=
  match name with
  | .target_present => if e.target_present then 1 else 0
  | .target_circAngle => e.target_circAngle

/-- The two auxiliary factors of
`factors = dict(visibility=['detect_button', range(4)], contrast=['target_contrast', [.50, .75, 1.]])`. -/
inductive Factor where
  | visibility
  | contrast
  deriving DecidableEq, Inhabited

/-- `factors[factor][0]`: the events column a factor reads. -/
def factorKey (f : Factor) : Event → ℚ :=
  match f with
  | .visibility => Event.detect_button
  | .contrast => Event.target_contrast

/-- The rational 1/2 in normalized form (so that kernel reduction and
`decide` can evaluate comparisons on it). -/
def q12 : ℚ := ⟨1, 2, by decide, Nat.coprime_one_left 2⟩

/-- The rational 3/4 in normalized form. -/
def q34 : ℚ := ⟨3, 4, by decide, by norm_num⟩

/-- `factors[factor][1]`: the declared level values of a factor
(`range(4)` and `[.50, .75, 1.]`). -/
def factorValues (f : Factor) : List ℚ :=
  match f with
  | .visibility => [0, 1, 2, 3]
  | .contrast => [q12, q34, 1]

-- ### numpy-style index selection

/-- `np.where(p(events))[0]`: the ascending list of row indices satisfying a
predicate. -/
def whereIdx {α : Type} [Inhabited α] (p : α → Bool) (xs : List α) : List ℕ :=
  (List.range xs.length).filter (fun i => p (xs.getD i default))

/-- Fancy indexing `xs[sel]` by an index list. -/
def select {α : Type} [Inhabited α] (xs : List α) (sel : List ℕ) : List α :=
  sel.map (fun i => xs.getD i default)

-- ### Single-trial prediction error (`_subregress`, lines 140-145)

/-- Python/numpy floored modulo on reals: `x % y = x - y*⌊x/y⌋`. -/
noncomputable def fmod (x y : ℝ) : ℝ := x - y * ⌊x / y⌋

/-- The single-trial prediction error of `_subregress`:
for a circular analysis `y_error = np.abs(np.pi - ((y_pred - y_true) % (2*np.pi)))`,
otherwise `y_error = np.abs(y_pred - y_true)` (one entry of the error matrix). -/
noncomputable def yErr (circ : Bool) (p t : ℝ) : ℝ :=
  if circ then |Real.pi - fmod (p - t) (2 * Real.pi)| else |p - t|

-- ### `_subscore` (run_plot_subscore_gat.py lines 89-123)

/-- The trial subset `_subscore` builds for one factor level: the rows whose
factor column equals the level value, with all absent-target rows appended
(`sel = np.r_[sel, np.where(events['target_present'] == False)[0]]`) when the
analysis is `target_present`. -/
def subscoreSel (events : List Event) (name : AnalysisName) (factor : Factor)
    (v : ℚ) : List ℕ :=
  let sel0 := whereIdx (fun e => decide (factorKey factor e = v)) events
  if name = .target_present then
    sel0 ++ whereIdx (fun e => !e.target_present) events
  else sel0

/-- One column `scores[:, ii]` of `_subscore`: `none` models the NaN column
left in place when the level is skipped
(`if len(sel) < 5 or len(np.unique(y_true[sel])) < 2: continue`), and
`some` holds `scorer(y_true=y_true[sel], y_pred=y_pred[sel])`. -/
def subscoreLevel (scorer : List ℚ → List (List ℝ) → List ℝ)
    (y_pred : List (List ℝ)) (events : List Event) (name : AnalysisName)
    (factor : Factor) (v : ℚ) : Option (List ℝ) :=
  let y_true := events.map (labelOf name)
  let sel := subscoreSel events name factor v
  if sel.length < 5 ∨ (select y_true sel).dedup.length < 2 then none
  else some (scorer (select y_true sel) (select y_pred sel))

/-- `_subscore`: one Option column per declared factor level, in order. -/
def subscoreF (scorer : List ℚ → List (List ℝ) → List ℝ)
    (y_pred : List (List ℝ)) (events : List Event) (name : AnalysisName)
    (factor : Factor) : List (Option (List ℝ)) :=
  (factorValues factor).map (subscoreLevel scorer y_pred events name factor)

-- ### `_subscore_pipeline` inner loop (run_plot_subscore_gat.py lines 48-58)

/-- One iteration of the `for vis in range(4)` loop of `_subscore_pipeline`:
`sel = np.where(events['detect_button'] == vis)[0]`; if `len(sel) < 5` a NaN
matrix is appended (`none`); otherwise, for the `target_present` analysis all
absent-target rows are appended to `sel` and `subscore(gat, sel)` (the
external jr.gat scoring primitive, abstracted as `lib`) is computed. -/
def subscorePipelineLevel (lib : List ℕ → List (List ℝ)) (events : List Event)
    (name : AnalysisName) (vis : ℚ) : Option (List (List ℝ)) :=
  let sel0 := whereIdx (fun e => decide (e.detect_button = vis)) events
  if sel0.length < 5 then none
  else
    some (lib (if name = .target_present then
      sel0 ++ whereIdx (fun e => !e.target_present) events
    else sel0))

-- ### `_run` of run_decoding.py (lines 14-63)

/-- The trial selection of `_run`: the dataframe-query result
(`range(len(events))` when the query is `None`), with NaN-labeled trials
removed (`sel = [ii for ii in sel if ~np.isnan(events[condition][sel][ii])]`);
a NaN label is modelled as `Option.none`. -/
def runSelection (query : Option (Event → Bool)) (cond : Event → Option ℚ)
    (events : List Event) : List ℕ :=
  let sel0 := match query with
    | none => List.range events.length
    | some q => whereIdx q events
  sel0.filter (fun i => (cond (events.getD i default)).isSome)

/-- `_run`: aborts (`return`, i.e. `none`: nothing fitted, no artifact saved)
when the selection is empty, otherwise fits/scores/saves, abstracted as an
opaque `fit` applied to the selection. -/
def runDecod {β : Type} (fit : List ℕ → β) (query : Option (Event → Bool))
    (cond : Event → Option ℚ) (events : List Event) : Option β :=
  let sel := runSelection query cond events
  if sel.length = 0 then none else some (fit sel)

-- ### `_subregress` (run_plot_subscore_gat.py lines 126-168)

/-- `np.nanmean(R, axis=0)` over per-level rows of length `n` (a skipped
level is an all-NaN row, modelled `none`; defined rows hold no NaNs, so each
output cell is the mean over the defined rows, or NaN (`none`) when no row is
defined). -/
noncomputable def nanmeanRows (rows : List (Option (List ℝ))) (n : ℕ) :
    List (Option ℝ) :=
  let ok := rows.filterMap id
  (List.range n).map (fun j =>
    if ok.isEmpty then none
    else some ((ok.map (fun r => r.getD j 0)).sum / ok.length))

/-- `cov_factor` of `_subregress` independent mode: the *other* factor's
events column (`'target_contrast' if factor == 'visibility' else
'detect_button'`). -/
def covColumn (factor : Factor) : Event → ℚ :=
  match factor with
  | .visibility => Event.target_contrast
  | .contrast => Event.detect_button

/-- The base selection of `_subregress`:
`sel = np.intersect1d(np.where(events['target_present'] == True)[0],
np.where(events[key] >= values[0])[0])` — present trials whose factor column
is at least the smallest declared level (intersection of two ascending index
sets = conjunction). -/
def subregressSel (events : List Event) (factor : Factor) : List ℕ :=
  whereIdx (fun e => e.target_present &&
    decide ((factorValues factor).headD 0 ≤ factorKey factor e)) events

/-- `cov_sel = np.intersect1d(np.where(events[cov_factor] == cov_value)[0],
sel)` of `_subregress` independent mode. -/
def covSel (events : List Event) (factor : Factor) (cv : ℚ) : List ℕ :=
  (whereIdx (fun e => decide (covColumn factor e = cv)) events).filter
    (fun i => decide (i ∈ subregressSel events factor))

/-- The single-trial error matrix of `_subregress` (trials × times),
entry-wise `yErr`. -/
noncomputable def yErrMat (circ : Bool) (y_pred : List (List ℝ))
    (y_true : List ℚ) : List (List ℝ) :=
  (List.range y_pred.length).map
    (fun i => (y_pred.getD i []).map
      (fun p => yErr circ p ((y_true.getD i 0 : ℚ) : ℝ)))

/-- `_subregress`: checks `len(y_pred) != len(y_true)` (→ `ValueError`,
modelled `Except.error ()`), computes the single-trial error matrix with
`yErr`, restricts to present trials whose factor column is ≥ the smallest
declared level, and either rank-correlates directly (`repeated_spearman`,
opaque `spearman`) or — in independent mode — iterates `cov_value` over
`factors[factor][1]` (source line 156: `cov_key, cov_values = factors[factor]`,
i.e. the primary factor's own values) while selecting on the *other* factor's
column, skipping intersections of ≤ 5 trials, then nan-averages the per-level
rows. -/
noncomputable def subregress (spearman : List (List ℝ) → List ℚ → List ℝ)
    (y_pred : List (List ℝ)) (events : List Event) (name : AnalysisName)
    (factor : Factor) (independent : Bool) :
    Except Unit (List (Option ℝ)) :=
  if y_pred.length ≠ (events.map (labelOf name)).length then .error () else
  if independent then
    .ok (nanmeanRows
      ((factorValues factor).map (fun cv =>
        if (covSel events factor cv).length ≤ 5 then none
        else some (spearman
          (select (yErrMat (decide (name = .target_circAngle)) y_pred
            (events.map (labelOf name))) (covSel events factor cv))
          (select (events.map (factorKey factor)) (covSel events factor cv)))))
      ((y_pred.getD 0 []).length))
  else
    .ok ((spearman
      (select (yErrMat (decide (name = .target_circAngle)) y_pred
        (events.map (labelOf name))) (subregressSel events factor))
      (select (events.map (factorKey factor))
        (subregressSel events factor))).map some)

-- ### `_correlate` core (run_plot_subscore_gat.py lines 259-272)

/-- The per-subject core of `_correlate`: keep only present trials
(`sel = np.where(events['target_present'])[0]`), restrict the (flattened
train×test) single-trial prediction rows and the visibility column to them,
and rank-correlate (`repeated_spearman`, opaque). -/
def correlateF (spearman : List (List ℝ) → List ℚ → List ℝ)
    (y_pred : List (List ℝ)) (events : List Event) : List ℝ :=
  spearman (select y_pred (whereIdx (fun e => e.target_present) events))
    (select (events.map Event.detect_button)
      (whereIdx (fun e => e.target_present) events))

-- ### `_duration_toi` alignment step (run_plot_subscore_gat.py lines 294-300)

/-- `np.roll(xs, s)` on one row: output position `j` holds the input at
position `(j - s) mod n` (circular shift by `s`). -/
def np_roll (s : ℤ) (xs : List ℝ) : List ℝ :=
  (List.range xs.length).map
    (fun (j : ℕ) => xs.getD (((j : ℤ) - s) % (xs.length : ℤ)).toNat 0)

/-- Modelled from the spec: `jr.utils.align_on_diag` is not under `src/`;
per §4.5 and the §9 design note ("the source's circular-label
duration-alignment uses a raw index roll"), it circularly rolls row `i` of
the train×test matrix by `-i`, moving the training-time diagonal cell to
column 0. -/
def align_on_diag (M : List (List ℝ)) : List (List ℝ) :=
  (List.range M.length).map (fun (i : ℕ) => np_roll (-(i : ℤ)) (M.getD i []))

/-- The full duration-alignment step of `_duration_toi`:
`align_on_diag` followed by the centering shift
`np.roll(scores, len(times) // 2, axis=2)`. -/
def durationAlign (n_times : ℕ) (M : List (List ℝ)) : List (List ℝ) :=
  (align_on_diag M).map (np_roll ((n_times / 2 : ℕ) : ℤ))

/-- A train×test matrix whose training-time diagonal is already centered:
each row holds its diagonal value at the center column `n_times / 2`. -/
def diagCentered (n_times : ℕ) (M : List (List ℝ)) : Prop :=
  ∀ i, i < M.length → (M.getD i []).getD (n_times / 2) 0 = (M.getD i []).getD i 0

-- ### Subscore Engine round trip (spec §4.1, §4.2)

/-- Modelled from the spec: the Generalization Engine's scoring step
(`gat.score`, external to `src/`) — per §4.1 it applies the analysis's
scoring function to the true labels and the stored predictions at each
(t_train, t_test) cell. -/
def specGatScore (scorer : List ℝ → List ℝ → ℝ)
    (preds : List (List (List ℝ))) (y : List ℝ) : List (List ℝ) :=
  preds.map (fun row => row.map (fun cell => scorer y cell))

/-- Modelled from the spec: `jr.gat.subscore`, the Subscore Engine's
rescoring primitive (external to `src/`) — per §4.2 it applies the same
scoring function to the stored predictions and true labels restricted to a
trial-subset index list, per (t_train, t_test) cell, without refitting. -/
def specSubscoreM (scorer : List ℝ → List ℝ → ℝ)
    (preds : List (List (List ℝ))) (y : List ℝ) (sel : List ℕ) :
    List (List ℝ) :=
  preds.map (fun row => row.map
    (fun cell => scorer (select y sel) (select cell sel)))

-- ### Concrete witness inputs

/-- An opaque scorer instance for witnesses (ignores its inputs). -/
def scorer0 : List ℚ → List (List ℝ) → List ℝ := fun _ _ => []

/-- Witness predictions: nine trials, empty time axis. -/
def ypred0 : List (List ℝ) := List.replicate 9 []

/-- Witness metadata for the minimum-count rule: five trials at visibility 0
with two distinct circular labels, four trials at visibility 1. -/
def events0 : List Event :=
  [⟨0, 1, true, 0⟩, ⟨0, 1, true, 1⟩, ⟨0, 1, true, 0⟩, ⟨0, 1, true, 1⟩,
   ⟨0, 1, true, 0⟩, ⟨1, 1, true, 0⟩, ⟨1, 1, true, 1⟩, ⟨1, 1, true, 0⟩,
   ⟨1, 1, true, 1⟩]

/-- An opaque stand-in for the external `jr.gat.subscore` call. -/
def lib0 : List ℕ → List (List ℝ) := fun _ => []

/-- Metadata refuting union-before-count in `_subscore_pipeline`: four
present trials rated visibility 0 and ten absent trials rated 1. -/
def events2 : List Event :=
  [⟨0, 1, true, 1⟩, ⟨0, 1, true, 1⟩, ⟨0, 1, true, 1⟩, ⟨0, 1, true, 1⟩,
   ⟨1, 1, false, 0⟩, ⟨1, 1, false, 0⟩, ⟨1, 1, false, 0⟩, ⟨1, 1, false, 0⟩,
   ⟨1, 1, false, 0⟩, ⟨1, 1, false, 0⟩, ⟨1, 1, false, 0⟩, ⟨1, 1, false, 0⟩,
   ⟨1, 1, false, 0⟩, ⟨1, 1, false, 0⟩]

/-- A single trial whose label column is NaN (empty selection witness). -/
def events3 : List Event := [⟨0, 1, true, 0⟩]

/-- An opaque scoring-function instance for the round-trip witness. -/
noncomputable def scorer6 : List ℝ → List ℝ → ℝ := fun _ _ => 0

/-- A 1×1×1 stored prediction tensor. -/
noncomputable def preds6 : List (List (List ℝ)) := [[[0]]]

/-- A one-trial label vector. -/
noncomputable def y6 : List ℝ := [0]

/-- An opaque rank-correlation instance for witnesses. -/
def spearman0 : List (List ℝ) → List ℚ → List ℝ := fun _ _ => []

/-- Twelve one-time-point prediction rows for the independent-mode run. -/
noncomputable def ypred8 : List (List ℝ) := List.replicate 12 [0]

/-- Twelve present trials whose contrasts are only 1/2 and 3/4 (never
0, 1, 2 or 3, the values the buggy independent mode iterates over). -/
def events8 : List Event :=
  [⟨0, q12, true, 0⟩, ⟨1, q34, true, 0⟩, ⟨2, q12, true, 0⟩, ⟨3, q34, true, 0⟩,
   ⟨0, q12, true, 0⟩, ⟨1, q34, true, 0⟩, ⟨2, q12, true, 0⟩, ⟨3, q34, true, 0⟩,
   ⟨0, q12, true, 0⟩, ⟨1, q34, true, 0⟩, ⟨2, q12, true, 0⟩, ⟨3, q34, true, 0⟩]

/-- A 3×3 score matrix whose training-time diagonal is already centered
(center column 1 holds each row's diagonal value) but which circular
alignment nonetheless changes. -/
noncomputable def Mc9 : List (List ℝ) :=
  [[0, 0, 1], [0, 0, 0], [0, 0, 0]]

/-- A 2×2 row-constant score matrix (fixed by the alignment step). -/
noncomputable def Mw9 : List (List ℝ) := [[2, 2], [2, 2]]

/-- Invariance witness, first input: one present and one absent trial. -/
def eventsA : List Event := [⟨2, 1, true, 0⟩, ⟨1, 1, false, 0⟩]

/-- Invariance witness, second input: same present trial, but the absent
trial's visibility, contrast and label columns all differ. -/
def eventsB : List Event := [⟨2, 1, true, 0⟩, ⟨3, q12, false, 5⟩]

/-- Predictions paired with `eventsA`. -/
noncomputable def ypredA : List (List ℝ) := [[0], [1]]

/-- Predictions paired with `eventsB`: the absent trial's prediction
differs. -/
noncomputable def ypredB : List (List ℝ) := [[0], [7]]

-- ### Helper lemmas on selection

theorem getD_of_lt {α : Type} (l : List α) (i : ℕ) (d : α) (h : i < l.length) :
    l.getD i d = l[i] := by
  rw [List.getD_eq_getElem?_getD, List.getElem?_eq_getElem h]
  rfl

theorem getD_map_of_lt {α β : Type} (f : α → β) (l : List α) (i : ℕ) (da : α)
    (db : β) (h : i < l.length) : (l.map f).getD i db = f (l.getD i da) := by
  rw [getD_of_lt (l.map f) i db (by simpa using h), getD_of_lt l i da h,
    List.getElem_map]

theorem getD_range_map {β : Type} (f : ℕ → β) (n i : ℕ) (h : i < n) (d : β) :
    ((List.range n).map f).getD i d = f i := by
  rw [getD_map_of_lt f (List.range n) i 0 d (by simpa using h)]
  congr 1
  rw [getD_of_lt (List.range n) i 0 (by simpa using h), List.getElem_range]

theorem mem_whereIdx {α : Type} [Inhabited α] {p : α → Bool} {xs : List α}
    {i : ℕ} :
    i ∈ whereIdx p xs ↔ i < xs.length ∧ p (xs.getD i default) = true := by
  simp [whereIdx, List.mem_filter]

theorem whereIdx_congr {α : Type} [Inhabited α] {p q : α → Bool}
    {xs ys : List α} (hlen : ys.length = xs.length)
    (h : ∀ i, i < xs.length → p (xs.getD i default) = q (ys.getD i default)) :
    whereIdx p xs = whereIdx q ys := by
  unfold whereIdx
  rw [hlen]
  exact List.filter_congr (fun i hi => h i (List.mem_range.mp hi))

theorem select_congr {α : Type} [Inhabited α] {xs ys : List α} {sel : List ℕ}
    (h : ∀ i ∈ sel, xs.getD i default = ys.getD i default) :
    select xs sel = select ys sel :=
  List.map_congr_left h

theorem select_range {α : Type} [Inhabited α] (xs : List α) :
    select xs (List.range xs.length) = xs := by
  apply List.ext_getElem
  · simp [select]
  · intro n h1 h2
    simp only [select, List.getElem_map, List.getElem_range]
    exact getD_of_lt xs n default h2

-- ### Claims

/-- Claim C1: in the Subscore Engine, a factor level whose selected trial
subset has fewer than 5 trials — or, for the categorical `target_present`
scorer, fewer than 2 distinct true-label values — yields the NaN column
(`none`); the other levels are computed independently by the same per-level
map (computation continues, nothing is raised: the function is total); and a
level with exactly 5 trials carrying at least 2 distinct labels yields the
scorer's value (a finite score). -/
theorem subscore_min_count (scorer : List ℚ → List (List ℝ) → List ℝ)
    (y_pred : List (List ℝ)) (events : List Event) (name : AnalysisName)
    (factor : Factor) (v : ℚ) :
    ((subscoreSel events name factor v).length < 5 ∨
        (name = .target_present ∧
          (select (events.map (labelOf name))
            (subscoreSel events name factor v)).dedup.length < 2) →
      subscoreLevel scorer y_pred events name factor v = none)
    ∧ ((subscoreSel events name factor v).length = 5 →
        2 ≤ (select (events.map (labelOf name))
          (subscoreSel events name factor v)).dedup.length →
        subscoreLevel scorer y_pred events name factor v =
          some (scorer
            (select (events.map (labelOf name)) (subscoreSel events name factor v))
            (select y_pred (subscoreSel events name factor v))))
    ∧ subscoreF scorer y_pred events name factor =
        (factorValues factor).map (subscoreLevel scorer y_pred events name factor) := by
  refine ⟨?_, ?_, rfl⟩
  · intro h
    unfold subscoreLevel
    rw [if_pos]
    rcases h with h | ⟨_, h⟩
    · exact Or.inl h
    · exact Or.inr h
  · intro h5 h2
    unfold subscoreLevel
    rw [if_neg]
    omega

/-- Witness for C1: on `events0`, the 4-trial level 1 yields `none` and the
5-trial, two-label level 0 yields the scorer's value. -/
theorem subscore_min_count_w :
    subscoreLevel scorer0 ypred0 events0 .target_circAngle .visibility 1 = none
    ∧ subscoreLevel scorer0 ypred0 events0 .target_circAngle .visibility 0 =
        some (scorer0
          (select (events0.map (labelOf .target_circAngle))
            (subscoreSel events0 .target_circAngle .visibility 0))
          (select ypred0 (subscoreSel events0 .target_circAngle .visibility 0))) := by
  constructor
  · exact (subscore_min_count scorer0 ypred0 events0 .target_circAngle
      .visibility 1).1 (Or.inl (by decide))
  · exact (subscore_min_count scorer0 ypred0 events0 .target_circAngle
      .visibility 0).2.1 (by decide) (by decide)

/-- Claim C2, counterexample: in `_subscore_pipeline` (target-present
analysis) a level with 4 own trials is declared NaN even though its union
with the absent trials has 14 ≥ 5 trials — the minimum-count decision is
taken before the absent trials are unioned in, contradicting the claim that
the union precedes every minimum-count decision. -/
theorem pipeline_count_before_union_cex :
    subscorePipelineLevel lib0 events2 .target_present 0 = none ∧
      ¬ (subscoreSel events2 .target_present .visibility 0).length < 5 := by
  constructor
  · rfl
  · decide

/-- Claim C2 (amended): in `_subscore` the scored subset of each level is the
level's trials followed by all absent-target trials, and the minimum-count
decision is taken on that union; in `_subscore_pipeline` the minimum-count
decision is taken on the level's own trials first, and only when they number
at least 5 are the absent trials unioned in before scoring. -/
theorem subscore_union_order (scorer : List ℚ → List (List ℝ) → List ℝ)
    (lib : List ℕ → List (List ℝ)) (y_pred : List (List ℝ))
    (events : List Event) (factor : Factor) (v : ℚ) :
    subscoreSel events .target_present factor v =
      whereIdx (fun e => decide (factorKey factor e = v)) events ++
        whereIdx (fun e => !e.target_present) events
    ∧ subscoreLevel scorer y_pred events .target_present factor v =
        (let u := whereIdx (fun e => decide (factorKey factor e = v)) events ++
          whereIdx (fun e => !e.target_present) events
        if u.length < 5 ∨
            (select (events.map (labelOf .target_present)) u).dedup.length < 2
          then none
          else some (scorer (select (events.map (labelOf .target_present)) u)
            (select y_pred u)))
    ∧ subscorePipelineLevel lib events .target_present v =
        (let sel0 := whereIdx (fun e => decide (e.detect_button = v)) events
        if sel0.length < 5 then none
        else some (lib (sel0 ++ whereIdx (fun e => !e.target_present) events))) := by
  refine ⟨rfl, rfl, rfl⟩

/-- Claim C3: in `_run`, when the trial selection (query predicate plus
removal of NaN-labeled trials) is empty, the run returns `none` — nothing is
fitted (the result does not depend on `fit`), no artifact is produced, and no
exception is raised (the function is total). -/
theorem run_empty_selection {β : Type} (fit : List ℕ → β)
    (query : Option (Event → Bool)) (cond : Event → Option ℚ)
    (events : List Event) (h : runSelection query cond events = []) :
    runDecod fit query cond events = none := by
  simp [runDecod, h]

/-- Witness for C3: a single NaN-labeled trial gives an empty selection and a
`none` run result. -/
theorem run_empty_selection_w :
    runSelection none (fun _ => none) events3 = [] ∧
      runDecod (fun sel => sel.length) none (fun _ => none) events3 = none :=
  ⟨by decide, run_empty_selection (fun sel => sel.length) none (fun _ => none)
    events3 (by decide)⟩

-- ### Arithmetic facts about the floored modulo

theorem two_pi_ne : (2 : ℝ) * Real.pi ≠ 0 := by positivity

theorem fmod_of_nonneg_lt {x y : ℝ} (h0 : 0 ≤ x) (h1 : x < y) : fmod x y = x := by
  have hy : 0 < y := lt_of_le_of_lt h0 h1
  have hfl : ⌊x / y⌋ = 0 :=
    Int.floor_eq_zero_iff.mpr ⟨div_nonneg h0 hy.le, (div_lt_one hy).mpr h1⟩
  simp [fmod, hfl]

theorem fmod_add_int_mul (x y : ℝ) (k : ℤ) (hy : y ≠ 0) :
    fmod (x + y * k) y = fmod x y := by
  have hdiv : (x + y * k) / y = x / y + (k : ℝ) := by field_simp; ring
  simp only [fmod, hdiv]
  rw [show x / y + (k : ℝ) = x / y + ((k : ℤ) : ℝ) by norm_num,
    Int.floor_add_int]
  push_cast
  ring

theorem fmod_eq_fract (x y : ℝ) (hy : y ≠ 0) :
    fmod x y = y * Int.fract (x / y) := by
  rw [Int.fract]
  field_simp [fmod]

theorem yErr_circ_symm (t d : ℝ) : yErr true (t + d) t = yErr true (t - d) t := by
  have h2 : (2 : ℝ) * Real.pi ≠ 0 := two_pi_ne
  simp only [yErr, if_pos, add_sub_cancel_left, sub_sub_cancel_left]
  rw [fmod_eq_fract _ _ h2, fmod_eq_fract _ _ h2]
  rw [show -d / (2 * Real.pi) = -(d / (2 * Real.pi)) by ring]
  by_cases hz : Int.fract (d / (2 * Real.pi)) = 0
  · rw [hz, Int.fract_neg_eq_zero.mpr hz]
  · rw [Int.fract_neg hz]
    rw [abs_sub_comm]
    ring_nf

/-- Claim C4: the single-trial error of the regression engine is, for a
circular analysis, `|π − ((pred − true) mod 2π)|` — where `(pred − true)
mod 2π` is the representative `r ∈ [0, 2π)` of `pred − true` — and, for a
non-circular analysis, `|pred − true|`. -/
theorem yErr_semantics (p t r : ℝ) (k : ℤ) (h0 : 0 ≤ r) (h1 : r < 2 * Real.pi)
    (hk : p - t = r + 2 * Real.pi * k) :
    yErr true p t = |Real.pi - r| ∧ yErr false p t = |p - t| := by
  constructor
  · simp only [yErr, if_pos]
    rw [hk, show r + 2 * Real.pi * k = r + (2 * Real.pi) * k by ring,
      fmod_add_int_mul _ _ k two_pi_ne, fmod_of_nonneg_lt h0 h1]
  · simp [yErr]

/-- Witness for C4: at `pred = π`, `true = 0` the representative is `r = π`
(with `k = 0`) and the circular error evaluates to `|π − π|`. -/
theorem yErr_semantics_w :
    (0 : ℝ) ≤ Real.pi ∧ Real.pi < 2 * Real.pi ∧
      yErr true Real.pi 0 = |Real.pi - Real.pi| := by
  have h0 : (0 : ℝ) ≤ Real.pi := Real.pi_pos.le
  have h1 : Real.pi < 2 * Real.pi := by nlinarith [Real.pi_pos]
  exact ⟨h0, h1,
    (yErr_semantics Real.pi 0 Real.pi 0 h0 h1 (by push_cast; ring)).1⟩

/-- Claim C5, counterexample: the circular error at true label 0 is *not* π
for predicted value π (it is 0), and *not* 0 for predicted value 0 (it is π)
— the code's quantity is maximal at a perfect prediction, the opposite of
the claimed anchoring. -/
theorem yErr_anchor_cex :
    yErr true Real.pi 0 ≠ Real.pi ∧ yErr true 0 0 ≠ 0 := by
  have hpi := Real.pi_pos
  have e1 : yErr true Real.pi 0 = 0 := by
    simp only [yErr, if_pos, sub_zero]
    rw [fmod_of_nonneg_lt hpi.le (by nlinarith)]
    simp
  have e2 : yErr true 0 0 = Real.pi := by
    simp only [yErr, if_pos, sub_zero]
    rw [fmod_of_nonneg_lt le_rfl (by positivity)]
    simp [abs_of_pos hpi]
  constructor
  · rw [e1]; exact fun h => hpi.ne h
  · rw [e2]; exact hpi.ne'

/-- Claim C5 (amended): the circular single-trial error is symmetric about
the true label, and anchored so that for true label 0 and predicted value π
it equals 0 (the minimum) while for predicted value 0 it equals π (the
maximum): the computed quantity is π minus the angular distance. -/
theorem yErr_symm_anchor :
    (∀ t d : ℝ, yErr true (t + d) t = yErr true (t - d) t) ∧
      yErr true Real.pi 0 = 0 ∧ yErr true 0 0 = Real.pi := by
  refine ⟨yErr_circ_symm, ?_, ?_⟩
  · simp only [yErr, if_pos, sub_zero]
    rw [fmod_of_nonneg_lt Real.pi_pos.le (by nlinarith [Real.pi_pos])]
    simp
  · simp only [yErr, if_pos, sub_zero]
    rw [fmod_of_nonneg_lt le_rfl (by positivity)]
    simp [abs_of_pos Real.pi_pos]

/-- Claim C6: rescoring the stored prediction tensor over a subset predicate
that excludes no trial (the full index range) reproduces the originally
stored score matrix — exactly, hence within any floating-point tolerance —
for every stored prediction tensor and scoring function. -/
theorem specSubscore_roundtrip (scorer : List ℝ → List ℝ → ℝ)
    (preds : List (List (List ℝ))) (y : List ℝ)
    (h : ∀ row ∈ preds, ∀ cell ∈ row, cell.length = y.length) :
    specSubscoreM scorer preds y (List.range y.length) =
      specGatScore scorer preds y := by
  unfold specSubscoreM specGatScore
  apply List.map_congr_left
  intro row hrow
  apply List.map_congr_left
  intro cell hcell
  rw [select_range y]
  congr 1
  rw [← h row hrow cell hcell]
  exact select_range cell

/-- Witness for C6: on a 1×1×1 tensor with matching trial counts, rescoring
over the full index range equals the stored score matrix. -/
theorem specSubscore_roundtrip_w :
    (∀ row ∈ preds6, ∀ cell ∈ row, cell.length = y6.length) ∧
      specSubscoreM scorer6 preds6 y6 (List.range y6.length) =
        specGatScore scorer6 preds6 y6 := by
  have h : ∀ row ∈ preds6, ∀ cell ∈ row, cell.length = y6.length := by
    intro row hrow cell hcell
    rw [List.mem_singleton.mp hrow, List.mem_singleton] at hcell
    rw [hcell]
    rfl
  exact ⟨h, specSubscore_roundtrip scorer6 preds6 y6 h⟩

/-- Claim C7: the regression engine fails (raises `ValueError`, modelled
`Except.error ()`) exactly when the per-trial prediction series count
differs from the covariate/true-label series count; with matching lengths it
never errors, so mismatched inputs are never silently coerced or truncated. -/
theorem subregress_length_check (spearman : List (List ℝ) → List ℚ → List ℝ)
    (y_pred : List (List ℝ)) (events : List Event) (name : AnalysisName)
    (factor : Factor) (independent : Bool) :
    subregress spearman y_pred events name factor independent =
        Except.error () ↔ y_pred.length ≠ events.length := by
  unfold subregress
  rcases eq_or_ne y_pred.length events.length with h | h
  · rw [if_neg (by simpa using h)]
    cases independent <;> simp [h]
  · rw [if_pos (by simpa using h)]
    simp [h]

/-- Claim C8 (code defect): in independent mode with the visibility factor,
the engine iterates the *primary* factor's level values 0,1,2,3 while
selecting on the contrast column (source line 156 binds `cov_values` from
`factors[factor]`); on trials whose contrasts are only 1/2 and 3/4 every
intersection is empty, so every level is skipped and the result is all-NaN —
for any rank-correlation function, instead of the claimed average of
per-contrast-level correlations. -/
theorem subregress_independent_eval
    (spearman : List (List ℝ) → List ℚ → List ℝ) :
    subregress spearman ypred8 events8 .target_present .visibility true =
      Except.ok [none] := by
  rfl

-- ### Faithfulness of the normalized rational constants

theorem q12_eq : q12 = 1 / 2 := by
  rw [q12, Rat.mk'_eq_divInt, Rat.divInt_eq_div]
  norm_num

theorem q34_eq : q34 = 3 / 4 := by
  rw [q34, Rat.mk'_eq_divInt, Rat.divInt_eq_div]
  norm_num

-- ### Circular-roll lemmas for the duration-alignment step

theorem np_roll_replicate (s : ℤ) (n : ℕ) (c : ℝ) :
    np_roll s (List.replicate n c) = List.replicate n c := by
  unfold np_roll
  rw [List.length_replicate]
  apply List.ext_getElem
  · simp
  · intro j h1 h2
    simp only [List.getElem_map, List.getElem_range, List.getElem_replicate]
    rw [List.length_replicate] at h2
    have hn : (0 : ℤ) < (n : ℤ) := by omega
    have hnn : ((j : ℤ) - s) % (n : ℤ) ≥ 0 := Int.emod_nonneg _ (by omega)
    have hlt : ((j : ℤ) - s) % (n : ℤ) < (n : ℤ) := Int.emod_lt_of_pos _ hn
    have htn : (((j : ℤ) - s) % (n : ℤ)).toNat < n := by omega
    rw [getD_of_lt _ _ _ (by simpa using htn), List.getElem_replicate]

/-- Claim C9, counterexample: `Mc9` has its training-time diagonal already
centered, yet the duration-alignment step changes it — the circular roll
wraps the boundary cell of row 0 around. -/
theorem durationAlign_centered_cex :
    diagCentered 3 Mc9 ∧ durationAlign 3 Mc9 ≠ Mc9 := by
  constructor
  · intro i hi
    have h3 : i < 3 := by simpa [Mc9] using hi
    interval_cases i <;> rfl
  · intro hEq
    have h1 : ((durationAlign 3 Mc9).getD 0 []).getD 0 (0 : ℝ) = 1 := rfl
    have h2 : ((Mc9).getD 0 []).getD 0 (0 : ℝ) = 0 := rfl
    rw [hEq, h2] at h1
    exact zero_ne_one h1

/-- Claim C9 (amended): the duration-alignment step shifts each row
circularly (row `i` by `⌊n/2⌋ − i`), so boundary cells wrap around; a matrix
whose diagonal is already centered is in general changed, and the step is a
no-op precisely on rows invariant under their shift — in particular it fixes
every matrix whose rows are constant. -/
theorem durationAlign_const_rows (n_times : ℕ) (M : List (List ℝ))
    (h : ∀ row ∈ M, ∃ c, row = List.replicate row.length c) :
    durationAlign n_times M = M := by
  unfold durationAlign align_on_diag
  apply List.ext_getElem
  · simp
  · intro i h1 h2
    simp only [List.getElem_map, List.getElem_range]
    rw [getD_of_lt M i [] h2]
    obtain ⟨c, hc⟩ := h M[i] (List.getElem_mem h2)
    rw [hc, np_roll_replicate, np_roll_replicate, ← hc]

/-- Witness for C9 (amended): the 2×2 row-constant matrix `Mw9` is fixed by
the alignment step. -/
theorem durationAlign_const_rows_w :
    (∀ row ∈ Mw9, ∃ c : ℝ, row = List.replicate row.length c) ∧
      durationAlign 2 Mw9 = Mw9 := by
  have h : ∀ row ∈ Mw9, ∃ c : ℝ, row = List.replicate row.length c := by
    intro row hrow
    fin_cases hrow <;> exact ⟨2, rfl⟩
  exact ⟨h, durationAlign_const_rows 2 Mw9 h⟩

-- ### Congruence lemmas for present-trial invariance

theorem whereIdx_present_and_congr {events evB : List Event}
    (h1 : evB.length = events.length)
    (h3 : ∀ i, i < events.length →
      (events.getD i default).target_present = (evB.getD i default).target_present)
    (h4e : ∀ i, i < events.length →
      (events.getD i default).target_present = true →
      events.getD i default = evB.getD i default)
    (q : Event → Bool) :
    whereIdx (fun e => e.target_present && q e) events =
      whereIdx (fun e => e.target_present && q e) evB := by
  apply whereIdx_congr h1
  intro i hi
  by_cases hp : (events.getD i default).target_present = true
  · rw [h4e i hi hp]
  · have hp1 : (events.getD i default).target_present = false := by
      simpa using hp
    have hp2 : (evB.getD i default).target_present = false := by
      rw [← h3 i hi]
      exact hp1
    simp only [hp1, hp2, Bool.false_and]

theorem mem_subregressSel {events : List Event} {factor : Factor} {i : ℕ}
    (h : i ∈ subregressSel events factor) :
    i < events.length ∧ (events.getD i default).target_present = true := by
  unfold subregressSel at h
  rw [mem_whereIdx] at h
  exact ⟨h.1, ((Bool.and_eq_true _ _).mp h.2).1⟩

theorem mem_covSel {events : List Event} {factor : Factor} {cv : ℚ} {i : ℕ}
    (h : i ∈ covSel events factor cv) :
    i < events.length ∧ (events.getD i default).target_present = true := by
  unfold covSel at h
  rw [List.mem_filter] at h
  exact mem_subregressSel (by simpa using h.2)

theorem covSel_congr {events evB : List Event}
    (h1 : evB.length = events.length)
    (h3 : ∀ i, i < events.length →
      (events.getD i default).target_present = (evB.getD i default).target_present)
    (h4e : ∀ i, i < events.length →
      (events.getD i default).target_present = true →
      events.getD i default = evB.getD i default)
    (factor : Factor) (cv : ℚ) :
    covSel events factor cv = covSel evB factor cv := by
  have hsel : subregressSel events factor = subregressSel evB factor := by
    unfold subregressSel
    exact whereIdx_present_and_congr h1 h3 h4e _
  unfold covSel
  rw [← hsel]
  unfold whereIdx
  rw [h1, List.filter_filter, List.filter_filter]
  apply List.filter_congr
  intro i hi
  rw [List.mem_range] at hi
  by_cases hm : i ∈ subregressSel events factor
  · have hp := (mem_subregressSel hm).2
    rw [h4e i hi hp]
  · simp [hm]

theorem select_map_congr_present (f : Event → ℚ) {events evB : List Event}
    (h1 : evB.length = events.length)
    (h4e : ∀ i, i < events.length →
      (events.getD i default).target_present = true →
      events.getD i default = evB.getD i default)
    {sel : List ℕ}
    (hmem : ∀ i ∈ sel, i < events.length ∧
      (events.getD i default).target_present = true) :
    select (events.map f) sel = select (evB.map f) sel := by
  apply select_congr
  intro i hi
  obtain ⟨hlt, hp⟩ := hmem i hi
  rw [getD_map_of_lt f events i default default hlt,
    getD_map_of_lt f evB i default default (by omega),
    h4e i hlt hp]

theorem select_yErrMat_congr (circ : Bool) (name : AnalysisName)
    {y_pred ypB : List (List ℝ)} {events evB : List Event}
    (h1 : evB.length = events.length)
    (hL : y_pred.length = events.length) (hLB : ypB.length = evB.length)
    (h4 : ∀ i, i < events.length →
      (events.getD i default).target_present = true →
      events.getD i default = evB.getD i default ∧
        y_pred.getD i [] = ypB.getD i [])
    {sel : List ℕ}
    (hmem : ∀ i ∈ sel, i < events.length ∧
      (events.getD i default).target_present = true) :
    select (yErrMat circ y_pred (events.map (labelOf name))) sel =
      select (yErrMat circ ypB (evB.map (labelOf name))) sel := by
  apply select_congr
  intro i hi
  obtain ⟨hlt, hp⟩ := hmem i hi
  unfold yErrMat
  rw [getD_range_map _ y_pred.length i (by omega) default,
    getD_range_map _ ypB.length i (by omega) default,
    getD_map_of_lt (labelOf name) events i default 0 hlt,
    getD_map_of_lt (labelOf name) evB i default 0 (by omega),
    (h4 i hlt hp).1, (h4 i hlt hp).2]

/-- Claim C10: the regression engine (`_subregress`, both modes) and the
correlation engine (`_correlate`) compute their coefficient arrays only from
present-target trials (for the subscore regression further restricted to
factor values at or above the smallest declared level): two inputs that
agree on every present trial — in metadata and predictions — but differ
arbitrarily in the predictions, factor, contrast or label columns of
absent-target trials produce identical results, for every rank-correlation
function. -/
theorem engines_absent_invariant
    (spearman : List (List ℝ) → List ℚ → List ℝ)
    (y_pred ypB : List (List ℝ)) (events evB : List Event)
    (name : AnalysisName) (factor : Factor) (independent : Bool)
    (h1 : evB.length = events.length)
    (h2 : ypB.length = y_pred.length)
    (h3 : ∀ i, i < events.length →
      (events.getD i default).target_present = (evB.getD i default).target_present)
    (h4 : ∀ i, i < events.length →
      (events.getD i default).target_present = true →
      events.getD i default = evB.getD i default ∧
        y_pred.getD i [] = ypB.getD i [])
    (h5 : ∀ i, i < events.length →
      (y_pred.getD i []).length = (ypB.getD i []).length) :
    subregress spearman y_pred events name factor independent =
        subregress spearman ypB evB name factor independent ∧
      correlateF spearman y_pred events = correlateF spearman ypB evB := by
  have h4e : ∀ i, i < events.length →
      (events.getD i default).target_present = true →
      events.getD i default = evB.getD i default :=
    fun i hi hp => (h4 i hi hp).1
  constructor
  · unfold subregress
    rcases eq_or_ne y_pred.length events.length with hL | hL
    · have hLB : ypB.length = evB.length := by omega
      have hA : ¬ (y_pred.length ≠ (List.map (labelOf name) events).length) := by
        simpa using hL
      have hB : ¬ (ypB.length ≠ (List.map (labelOf name) evB).length) := by
        simp only [List.length_map]
        omega
      rw [if_neg hA, if_neg hB]
      have hsel : subregressSel events factor = subregressSel evB factor := by
        unfold subregressSel
        exact whereIdx_present_and_congr h1 h3 h4e _
      have hnt : (y_pred.getD 0 []).length = (ypB.getD 0 []).length := by
        rcases Nat.eq_zero_or_pos events.length with hz | hpos
        · have hy : y_pred = [] := List.length_eq_zero.mp (by omega)
          have hyB : ypB = [] := List.length_eq_zero.mp (by omega)
          rw [hy, hyB]
        · exact h5 0 hpos
      apply if_congr Iff.rfl
      · rw [hnt]
        apply congrArg
          (fun l => Except.ok (nanmeanRows l ((ypB.getD 0 []).length)))
        apply List.map_congr_left
        intro cv _
        have hcov := covSel_congr h1 h3 h4e factor cv
        rw [← hcov]
        apply if_congr Iff.rfl rfl
        rw [select_yErrMat_congr (decide (name = .target_circAngle)) name h1 hL
            hLB h4 (fun i hi => mem_covSel hi),
          select_map_congr_present (factorKey factor) h1 h4e
            (fun i hi => mem_covSel hi)]
      · rw [← hsel,
          select_yErrMat_congr (decide (name = .target_circAngle)) name h1 hL
            hLB h4 (fun i hi => mem_subregressSel hi),
          select_map_congr_present (factorKey factor) h1 h4e
            (fun i hi => mem_subregressSel hi)]
    · have hA : y_pred.length ≠ (List.map (labelOf name) events).length := by
        simpa using hL
      have hB : ypB.length ≠ (List.map (labelOf name) evB).length := by
        simp only [List.length_map]
        omega
      rw [if_pos hA, if_pos hB]
  · unfold correlateF
    have hselc : whereIdx (fun e => e.target_present) events =
        whereIdx (fun e => e.target_present) evB :=
      whereIdx_congr h1 (fun i hi => h3 i hi)
    have hmemc : ∀ i ∈ whereIdx (fun e => e.target_present) events,
        i < events.length ∧ (events.getD i default).target_present = true :=
      fun i hi => mem_whereIdx.mp hi
    have hpredc : select y_pred (whereIdx (fun e => e.target_present) events) =
        select ypB (whereIdx (fun e => e.target_present) events) := by
      apply select_congr
      intro i hi
      exact (h4 i (hmemc i hi).1 (hmemc i hi).2).2
    rw [← hselc, hpredc,
      select_map_congr_present Event.detect_button h1 h4e hmemc]

/-- Witness for C10: `eventsA`/`eventsB` share their present trial but their
absent trial differs in visibility, contrast, label and prediction; both
engines return identical results. -/
theorem engines_absent_invariant_w :
    (∀ i, i < eventsA.length →
      (eventsA.getD i default).target_present =
        (eventsB.getD i default).target_present) ∧
      (subregress spearman0 ypredA eventsA .target_present .visibility false =
          subregress spearman0 ypredB eventsB .target_present .visibility false ∧
        correlateF spearman0 ypredA eventsA =
          correlateF spearman0 ypredB eventsB) := by
  have h1 : eventsB.length = eventsA.length := rfl
  have h2 : ypredB.length = ypredA.length := rfl
  have h3 : ∀ i, i < eventsA.length →
      (eventsA.getD i default).target_present =
        (eventsB.getD i default).target_present := by decide
  have h4 : ∀ i, i < eventsA.length →
      (eventsA.getD i default).target_present = true →
      eventsA.getD i default = eventsB.getD i default ∧
        ypredA.getD i [] = ypredB.getD i [] := by
    intro i hi hp
    have hi2 : i < 2 := hi
    interval_cases i
    · exact ⟨rfl, rfl⟩
    · exact absurd hp (by decide)
  have h5 : ∀ i, i < eventsA.length →
      (ypredA.getD i []).length = (ypredB.getD i []).length := by decide
  exact ⟨h3, engines_absent_invariant spearman0 ypredA ypredB eventsA eventsB
    .target_present .visibility false h1 h2 h3 h4 h5⟩
